import Mathlib

/-!
Shallow embedding of the EEPROM storage layer of `hakko_t12_stm32`
(`Src/eeprom.c`): a chunk-addressed EEPROM accessed through a depth-1
cache, carrying a circular wear-leveled configuration log (chunks 0-63)
and a fixed-slot tip table (chunks 64-127).

Machine integers are modelled as `Nat` with explicit `% 2^32` (resp.
`% 256`) where the C code relies on `uint32_t` (resp. byte) overflow.
The I2C transport is modelled by explicit outcome parameters: a `Bool`
per potential transport call (`true` = `HAL_OK`).  The device contents
are a function from chunk index to the 32-byte chunk contents.
-/

namespace Eeprom

/-- Bytes in one EEPROM chunk (`eeprom_chunk_size`). -/
def eeprom_chunk_size : Nat := 32

/-- Number of chunks in the EEPROM IC (`eeprom_chunks`). -/
def eeprom_chunks : Nat := 128

/-- Chunks dedicated to configuration data (`cfg_chunks`). -/
def cfg_chunks : Nat := 64

/-- Maximum number of chunks used to store configured tips (`tip_chunks`). -/
def tip_chunks : Nat := 64

/-- Value of `chunk_in_data` at program start: no chunk cached (65535). -/
def no_chunk : Nat := 65535

/-- Little-endian 4-byte encoding of a 32-bit value, as the bytes a
`uint32_t` field occupies in memory on the little-endian target. -/
def le4 (x : Nat) : List Nat :=
  [x % 256, x / 256 % 256, x / 65536 % 256, x / 16777216 % 256]

/-- Reading a `uint32_t` at byte offset `off` of a buffer (little-endian). -/
def le4get (l : List Nat) (off : Nat) : Nat :=
  l.getD off 0 + 256 * l.getD (off + 1) 0 + 65536 * l.getD (off + 2) 0 +
    16777216 * l.getD (off + 3) 0

/-- Reading a `uint16_t` at byte offset `off` of a buffer (little-endian). -/
def le2get (l : List Nat) (off : Nat) : Nat :=
  l.getD off 0 + 256 * l.getD (off + 1) 0

/-- `memcpy` of `bs` into buffer `l` at byte offset `off`. -/
def overwrite (l : List Nat) (off : Nat) (bs : List Nat) : List Nat :=
  l.take off ++ bs ++ l.drop (off + bs.length)

/-- The module's mutable state in `eeprom.c` (static variables), together
with the EEPROM device contents seen through the I2C transport and a
count of transport read calls issued (for cache-hit accounting). -/
structure EState where
  can_write : Bool
  r_chunk : Nat
  w_chunk : Nat
  data : List Nat
  chunk_in_data : Nat
  device : Nat → List Nat
  reads : Nat

/-- `readChunk(chunk_index)`: return immediately on a cache hit, fail on an
out-of-range index, otherwise issue one transport read (outcome `ok`). -/
def readChunk (s : EState) (ok : Bool) (chunk_index : Nat) : Bool × EState :=
  if chunk_index = s.chunk_in_data then (true, s)
  else if eeprom_chunks ≤ chunk_index then (false, s)
  else if ok then
    (true, { s with data := s.device chunk_index, chunk_in_data := chunk_index,
                    reads := s.reads + 1 })
  else (false, { s with reads := s.reads + 1 })

/-- `writeChunk(chunk_index)`: fail on an out-of-range index; otherwise mark
the buffer dirty (`chunk_in_data = eeprom_chunks`), issue the transport
write (outcome `ok`), and on success record the chunk as cached. -/
def writeChunk (s : EState) (ok : Bool) (chunk_index : Nat) : Bool × EState :=
  if eeprom_chunks ≤ chunk_index then (false, s)
  else if ok then
    (true, { s with chunk_in_data := chunk_index,
                    device := fun j => if j = chunk_index then s.data else s.device j })
  else (false, { s with chunk_in_data := eeprom_chunks })

/-- Modelled from the spec: the layout of `RECORD` (declared in `eeprom.h`,
which is not part of the sources here).  Per the spec's data model, a
configuration record is an opaque fixed-size payload plus an embedded
monotonically increasing 32-bit identifier (`ID`) and an embedded
full-width (32-bit) checksum field (`crc`), the whole record fitting in
one 32-byte chunk.  We fix the layout as: `ID` (4 bytes, little-endian),
then 12 payload bytes, then `crc` (4 bytes, little-endian), 20 bytes in
total. -/
structure RECORD where
  ID : Nat
  payload : List Nat
  crc : Nat
deriving DecidableEq

/-- `sizeof(RECORD)` for the modelled layout. -/
def sizeof_RECORD : Nat := 20

/-- Byte offset of the `crc` field inside `RECORD`. -/
def crc_offset : Nat := 16

/-- In-memory byte image of a `RECORD` (little-endian fields). -/
def encodeRECORD (r : RECORD) : List Nat :=
  le4 r.ID ++ r.payload ++ le4 r.crc

/-- `memcpy(config_record, data, sizeof(RECORD))`: reading a `RECORD` back
from a byte buffer. -/
def decodeRECORD (buf : List Nat) : RECORD :=
  { ID := le4get buf 0, payload := (buf.drop 4).take 12, crc := le4get buf crc_offset }

/-- The rolling sum of `CFG_checkSum`: `summ = 117` then
`summ <<= 1; summ += d[i]` over the bytes, in `uint32_t` arithmetic. -/
def csum32 (l : List Nat) : Nat :=
  l.foldl (fun a b => (2 * a + b) % 2 ^ 32) 117

/-- The checksum `CFG_checkSum` computes for a record: the rolling sum over
the record's bytes with its `crc` field zeroed first. -/
def cfgChecksumOf (r : RECORD) : Nat :=
  csum32 (encodeRECORD { r with crc := 0 })

/-- `CFG_checkSum(cfg, write)` acting on the chunk buffer holding the
record: reads the stored `crc`, zeroes the `crc` field in the buffer,
computes the rolling sum over the record's `sizeof_RECORD` bytes, and (only
when `write`) stores the computed sum into the `crc` field.  Returns the
comparison result together with the mutated buffer. -/
def CFG_checkSum_buf (buf : List Nat) (write : Bool) : Bool × List Nat :=
  let rec_summ := le4get buf crc_offset
  let zeroed := overwrite buf crc_offset (le4 0)
  let summ := csum32 (zeroed.take sizeof_RECORD)
  (decide (rec_summ = summ), if write then overwrite zeroed crc_offset (le4 summ) else zeroed)

/-- `loadRecord(config_record)`: read the chunk at `r_chunk` (transport
outcome `rok` on a cache miss), validate the checksum, and on success copy
the record out of the (already crc-zeroed) buffer. -/
def loadRecord (s : EState) (rok : Bool) : Option RECORD × EState :=
  match readChunk s rok s.r_chunk with
  | (true, s1) =>
    let res := CFG_checkSum_buf s1.data false
    let s2 := { s1 with data := res.2 }
    if res.1 then (some (decodeRECORD res.2), s2) else (none, s2)
  | (false, s1) => (none, s1)

/-- `saveRecord(config_record)`: refuse when `can_write` is unset;
otherwise increment the caller's record `ID` (modulo `2^32`), stamp its
`crc`, copy the record into the chunk buffer and write the buffer to chunk
`w_chunk` (transport outcome `wok`).  On success `r_chunk` becomes the old
`w_chunk` and `w_chunk` advances, wrapping to 0 at `cfg_chunks`.  Returns
the success flag, the new state and the (mutated) caller record. -/
def saveRecord (s : EState) (p : RECORD) (wok : Bool) : Bool × EState × RECORD :=
  if !s.can_write then (false, s, p)
  else
    let p1 := { p with ID := (p.ID + 1) % 2 ^ 32 }
    let p2 := { p1 with crc := cfgChecksumOf p1 }
    let s1 := { s with data := overwrite s.data 0 (encodeRECORD p2) }
    match writeChunk s1 wok s.w_chunk with
    | (true, s2) =>
      (true, { s2 with r_chunk := s.w_chunk,
                       w_chunk := if cfg_chunks ≤ s.w_chunk + 1 then 0 else s.w_chunk + 1 }, p2)
    | (false, s2) => (false, s2, p2)

/-- `sizeof(TIP)`: 16 bytes, per the comment in `eeprom.c` ("As soon
sizeof(TIP) is 16 bytes ..."). -/
def sizeof_TIP : Nat := 16

/-- Modelled from the spec: `tip_name_sz` (declared in `iron_tips.h`, not
part of the sources here).  The spec's tip record is four 16-bit numeric
calibration points, a mask byte, an ambient byte, a fixed-length name and
an 8-bit checksum, 16 bytes in total, so the name field is 5 bytes. -/
def tip_name_sz : Nat := 5

/-- `requiredTipSpace()`: the smallest power of two that is at least
`sizeof(TIP)`, capped at `eeprom_chunk_size` (the C loop doubles `i` from 1
while `i <= eeprom_chunk_size`). -/
def requiredTipSpaceAux : Nat → Nat → Nat
  | 0, _ => eeprom_chunk_size
  | fuel + 1, i =>
    if eeprom_chunk_size < i then eeprom_chunk_size
    else if sizeof_TIP ≤ i then i
    else requiredTipSpaceAux fuel (2 * i)

/-- `requiredTipSpace()` (6 doublings exhaust the range `1..32`). -/
def requiredTipSpace : Nat := requiredTipSpaceAux 7 1

/-- `tipDataTotal()`: total number of tip slots. -/
def tipDataTotal : Nat :=
  tip_chunks * (eeprom_chunk_size / requiredTipSpace)

/-- `TIP_checkSum(tip, write)` acting on the chunk buffer at byte offset
`off` where the 16-byte tip record starts: folds the fields t200, t260,
t330, t400 (16-bit, little-endian), mask, ambient, and the name bytes as
`summ <<= 1; summ += field` in `uint32_t` arithmetic, adds the seed 117,
and compares (or, when `write`, stores) the low 8 bits against the `crc`
byte at offset `off + 15`. -/
def TIP_checkSum_buf (buf : List Nat) (off : Nat) (write : Bool) : Bool × List Nat :=
  let fields := [le2get buf (off + 2), le2get buf (off + 4), le2get buf (off + 6),
                 buf.getD (off + 8) 0, buf.getD (off + 9) 0,
                 buf.getD (off + 10) 0, buf.getD (off + 11) 0, buf.getD (off + 12) 0,
                 buf.getD (off + 13) 0, buf.getD (off + 14) 0]
  let summ := (fields.foldl (fun a x => (2 * a + x) % 2 ^ 32) (le2get buf off) + 117) % 2 ^ 32
  (decide (buf.getD (off + 15) 0 = summ % 256),
   if write then overwrite buf (off + 15) [summ % 256] else buf)

/-- Status values returned by the tip data operations (`TIP_IO_STATUS`). -/
inductive TIP_IO_STATUS where
  | EPR_OK
  | EPR_IO
  | EPR_CHECKSUM
  | EPR_INDEX
deriving DecidableEq

export TIP_IO_STATUS (EPR_OK EPR_IO EPR_CHECKSUM EPR_INDEX)

/-- `loadTipData(tip, tip_chunk_index)`: bound-check the slot index
(non-strict, as in the source), compute the target chunk and in-chunk
offset, read the chunk (transport outcome `rok` on a cache miss) and
validate the tip checksum.  Returns the status, the 16 tip bytes on
success, and the new state. -/
def loadTipData (s : EState) (rok : Bool) (tip_chunk_index : Nat) :
    TIP_IO_STATUS × Option (List Nat) × EState :=
  let tip_space := requiredTipSpace
  let tips_per_chunk := eeprom_chunk_size / tip_space
  if tip_chunks * tips_per_chunk < tip_chunk_index then (EPR_INDEX, none, s)
  else
    let tip_chunk := tip_chunk_index / tips_per_chunk + eeprom_chunks - tip_chunks
    let index := tip_chunk_index % tips_per_chunk * tip_space
    match readChunk s rok tip_chunk with
    | (true, s1) =>
      if (TIP_checkSum_buf s1.data index false).1 then
        (EPR_OK, some ((s1.data.drop index).take sizeof_TIP), s1)
      else (EPR_CHECKSUM, none, s1)
    | (false, s1) => ( EPR_IO, none, s1)

/-- `saveTipData(tip, tip_chunk_index)`: same bound check and address
computation as `loadTipData`; read the whole target chunk, overwrite the
target slot with the 16 tip bytes, stamp the tip checksum inside the
buffer, and write the whole chunk back. -/
def saveTipData (s : EState) (rok wok : Bool) (tip_chunk_index : Nat)
    (tip : List Nat) : TIP_IO_STATUS × EState :=
  let tip_space := requiredTipSpace
  let tips_per_chunk := eeprom_chunk_size / tip_space
  if tip_chunks * tips_per_chunk < tip_chunk_index then (EPR_INDEX, s)
  else
    let tip_chunk := tip_chunk_index / tips_per_chunk + eeprom_chunks - tip_chunks
    let index := tip_chunk_index % tips_per_chunk * tip_space
    match readChunk s rok tip_chunk with
    | (true, s1) =>
      let buf1 := overwrite s1.data index (tip.take sizeof_TIP)
      let buf2 := (TIP_checkSum_buf buf1 index true).2
      let s2 := { s1 with data := buf2 }
      match writeChunk s2 wok tip_chunk with
      | (true, s3) => (EPR_OK, s3)
      | (false, s3) => ( EPR_IO, s3)
    | (false, s1) => ( EPR_IO, s1)

/-- The accumulator of the `EEPROM_init` scan loop: minimum and maximum
record IDs seen, the chunks holding them, and the count of valid
records. -/
structure ScanAcc where
  min_rec_ID : Nat
  min_rec_ch : Nat
  max_rec_ID : Nat
  max_rec_ch : Nat
  records : Nat
deriving DecidableEq

/-- One accepted record (chunk `chunk`, identifier `id`) of the init scan:
`++records`, then the strict min / max updates of `EEPROM_init`. -/
def accStep (acc : ScanAcc) (chunk id : Nat) : ScanAcc :=
  let acc1 := { acc with records := acc.records + 1 }
  let acc2 :=
    if id < acc1.min_rec_ID then { acc1 with min_rec_ID := id, min_rec_ch := chunk }
    else acc1
  if acc2.max_rec_ID < id then { acc2 with max_rec_ID := id, max_rec_ch := chunk }
  else acc2

/-- The `for (chunk = 0; chunk < cfg_chunks; ++chunk)` loop of
`EEPROM_init`: read each chunk (per-chunk transport outcome `ro chunk`),
validate it with `CFG_checkSum` (which zeroes the `crc` field in the
buffer), record its ID in the accumulator, and break at the first chunk
that fails to read or fails validation. -/
def initLoop (ro : Nat → Bool) : Nat → Nat → ScanAcc → EState → ScanAcc × EState
  | 0, _, acc, s => (acc, s)
  | fuel + 1, chunk, acc, s =>
    match readChunk s (ro chunk) chunk with
    | (true, s1) =>
      let res := CFG_checkSum_buf s1.data false
      let s2 := { s1 with data := res.2 }
      if res.1 then initLoop ro fuel (chunk + 1) (accStep acc chunk (le4get res.2 0)) s2
      else (acc, s2)
    | (false, s1) => (acc, s1)

/-- `EEPROM_init(pHi2c)`: run the scan over the config region and set the
read / write pointers and the `can_write` flag from the min / max record
IDs found. -/
def EEPROM_init (s : EState) (ro : Nat → Bool) : EState :=
  let res := initLoop ro cfg_chunks 0 ⟨2 ^ 32 - 1, 0, 0, 0, 0⟩ s
  let acc := res.1
  let s1 := res.2
  if acc.records = 0 then { s1 with w_chunk := 0, r_chunk := 0, can_write := true }
  else
    let r := acc.max_rec_ch
    let w :=
      if acc.records < cfg_chunks then (if cfg_chunks ≤ r + 1 then 0 else r + 1)
      else acc.min_rec_ch
    { s1 with r_chunk := r, w_chunk := w, can_write := true }

/-- The identifiers of the maximal valid prefix the init scan accepts: the
`k`-th element is the ID stored in config chunk `k`; the list ends at the
first chunk that fails to read (through the cache, per-chunk transport
outcome `ro chunk`) or fails checksum validation. -/
def scanIDsAux (ro : Nat → Bool) : Nat → Nat → EState → List Nat
  | 0, _, _ => []
  | fuel + 1, chunk, s =>
    match readChunk s (ro chunk) chunk with
    | (true, s1) =>
      let res := CFG_checkSum_buf s1.data false
      if res.1 then le4get res.2 0 :: scanIDsAux ro fuel (chunk + 1) { s1 with data := res.2 }
      else []
    | (false, _) => []

/-- The identifiers of the valid records the init scan observes, starting
from chunk 0 of the config region. -/
def scanIDs (s : EState) (ro : Nat → Bool) : List Nat :=
  scanIDsAux ro cfg_chunks 0 s

/-- The write pass of `clearConfigArea`: write the erased pattern held in
the buffer to config chunks in index order directly through the transport
(outcome `wo chunk` per chunk; `chunk_in_data` is not touched), stopping
at the first failure. -/
def clearLoop (wo : Nat → Bool) : Nat → Nat → EState → EState
  | 0, _, s => s
  | fuel + 1, chunk, s =>
    if wo chunk then
      clearLoop wo fuel (chunk + 1)
        { s with device := fun j => if j = chunk then s.data else s.device j }
    else s

/-- `clearConfigArea()`: fill the buffer with `0xFF`, write it over every
config chunk (best effort), then rerun `EEPROM_init`. -/
def clearConfigArea (s : EState) (wo ro : Nat → Bool) : EState :=
  EEPROM_init (clearLoop wo cfg_chunks 0
    { s with data := List.replicate eeprom_chunk_size 255 }) ro

/-- The rolling sum without the `uint32_t` truncation. -/
def csumU (a : Nat) (l : List Nat) : Nat :=
  l.foldl (fun s b => 2 * s + b) a

/-- The mutation `saveRecord` applies to the caller's record before the
chunk write: the `ID` field is incremented (in `uint32_t` arithmetic) and
the `crc` field is overwritten with the checksum of the updated record. -/
def stampedRECORD (p : RECORD) : RECORD :=
  let p1 : RECORD := { p with ID := (p.ID + 1) % 2 ^ 32 }
  { p1 with crc := cfgChecksumOf p1 }

/-- `count` consecutive `saveRecord` calls threading the same caller
record, every transport write succeeding. -/
def iterSaves : Nat → EState → RECORD → EState × RECORD
  | 0, s, p => (s, p)
  | k + 1, s, p => iterSaves k (saveRecord s p true).2.1 (saveRecord s p true).2.2

/-- Folding the identifiers the scan accepts through `accStep`, the chunk
number advancing with the list position. -/
def foldIdx (chunk : Nat) (acc : ScanAcc) : List Nat → ScanAcc
  | [] => acc
  | id :: t => foldIdx (chunk + 1) (accStep acc chunk id) t

/-- Index of the first occurrence of `v` in the list (the list's length
when `v` does not occur). -/
def firstIdx : List Nat → Nat → Nat
  | [], _ => 0
  | x :: t, v => if x = v then 0 else firstIdx t v + 1

/-- A concrete power-on state over an erased device, used by witnesses. -/
def state0 : EState :=
  { can_write := false, r_chunk := 0, w_chunk := 0,
    data := List.replicate 32 0, chunk_in_data := no_chunk,
    device := fun _ => List.replicate 32 255, reads := 0 }

/-- A store state holding a valid record with identifier 5 at chunk 0,
used as the claim C2 counterexample. -/
def c2store : EState :=
  { can_write := true, r_chunk := 0, w_chunk := 1,
    data := List.replicate 32 0, chunk_in_data := no_chunk,
    device := fun _ =>
      encodeRECORD { ID := 5, payload := List.replicate 12 1,
                     crc := cfgChecksumOf { ID := 5, payload := List.replicate 12 1, crc := 0 } } ++
        List.replicate 12 0,
    reads := 0 }

/-- A store state holding a valid record with identifier 7 at chunk 0,
used to exhibit the claim C6 cache-coherence bug. -/
def c6store : EState :=
  { can_write := true, r_chunk := 0, w_chunk := 1,
    data := List.replicate 32 0, chunk_in_data := no_chunk,
    device := fun _ =>
      encodeRECORD { ID := 7, payload := List.replicate 12 3,
                     crc := cfgChecksumOf { ID := 7, payload := List.replicate 12 3, crc := 0 } } ++
        List.replicate 12 0,
    reads := 0 }

/-- A store whose chunk 0 holds a record with identifier 7 whose first
byte (the identifier's low byte, 7) has been corrupted to 135, used as the
claim C3 witness. -/
def c3store : EState :=
  { can_write := true, r_chunk := 0, w_chunk := 1,
    data := List.replicate 32 0, chunk_in_data := no_chunk,
    device := fun _ =>
      (([] : List Nat) ++ 135 :: ([0, 0, 0] ++ List.replicate 12 3)) ++
        le4 (cfgChecksumOf { ID := 7, payload := List.replicate 12 3, crc := 0 }) ++
        List.replicate 12 0,
    reads := 0 }

/-- A store whose chunk 0 holds a valid record with identifier 5 and whose
chunk 1 is erased (all `0xFF`), used as the claim C4 witness. -/
def c4record : RECORD := { ID := 5, payload := List.replicate 12 1, crc := 0 }

def c4store : EState :=
  { can_write := false, r_chunk := 0, w_chunk := 0,
    data := List.replicate 32 0, chunk_in_data := no_chunk,
    device := fun j =>
      if j = 0 then
        encodeRECORD { c4record with crc := cfgChecksumOf c4record } ++ List.replicate 12 0
      else List.replicate 32 255,
    reads := 0 }

lemma le4_length (x : Nat) : (le4 x).length = 4 := rfl

lemma foldl_step_lt : ∀ (l : List Nat) (a : Nat), a < 2 ^ 32 →
    l.foldl (fun a b => (2 * a + b) % 2 ^ 32) a < 2 ^ 32
  | [], _, h => h
  | _ :: t, _, _ => foldl_step_lt t _ (Nat.mod_lt _ (by norm_num))

lemma csum32_lt (l : List Nat) : csum32 l < 2 ^ 32 :=
  foldl_step_lt l 117 (by norm_num)

lemma cfgChecksumOf_lt (r : RECORD) : cfgChecksumOf r < 2 ^ 32 :=
  csum32_lt _

lemma le4get_at (l pre : List Nat) (x : Nat) (rest : List Nat) (n : Nat)
    (hl : l = pre ++ (le4 x ++ rest)) (hn : pre.length = n) (hx : x < 2 ^ 32) :
    le4get l n = x := by
  subst hl hn
  have gke : ∀ i, i < 4 →
      (pre ++ (le4 x ++ rest)).getD (pre.length + i) 0 = (le4 x).getD i 0 := by
    intro i hi
    rw [List.getD_append_right _ _ _ _ (Nat.le_add_right _ _), Nat.add_sub_cancel_left]
    exact List.getD_append _ _ _ _ (by rw [le4_length]; exact hi)
  have g0 := gke 0 (by norm_num)
  have g1 := gke 1 (by norm_num)
  have g2 := gke 2 (by norm_num)
  have g3 := gke 3 (by norm_num)
  rw [Nat.add_zero] at g0
  unfold le4get
  rw [g0, g1, g2, g3]
  show x % 256 + 256 * (x / 256 % 256) + 65536 * (x / 65536 % 256) +
      16777216 * (x / 16777216 % 256) = x
  omega

lemma overwrite_at (l pre mid rest newmid : List Nat) (n : Nat)
    (hl : l = pre ++ (mid ++ rest)) (hn : pre.length = n)
    (hm : mid.length = newmid.length) :
    overwrite l n newmid = pre ++ newmid ++ rest := by
  subst hl hn
  unfold overwrite
  rw [List.take_left, ← List.append_assoc,
    List.drop_left' (by rw [List.length_append, hm])]

lemma take_at (l pre rest : List Nat) (n : Nat)
    (hl : l = pre ++ rest) (hn : pre.length = n) :
    l.take n = pre := by
  subst hl
  exact List.take_left' hn

lemma CFG_checkSum_buf_shape (buf h16 tail : List Nat) (c : Nat)
    (hbuf : buf = h16 ++ le4 c ++ tail)
    (hlen : h16.length = 16) (hc : c < 2 ^ 32) :
    CFG_checkSum_buf buf false =
      (decide (c = csum32 (h16 ++ le4 0)), h16 ++ le4 0 ++ tail) := by
  subst hbuf
  have hread : le4get (h16 ++ le4 c ++ tail) crc_offset = c :=
    le4get_at _ h16 c tail _ (by simp) (by rw [hlen]; rfl) hc
  have hover : overwrite (h16 ++ le4 c ++ tail) crc_offset (le4 0) =
      h16 ++ le4 0 ++ tail :=
    overwrite_at _ h16 (le4 c) tail (le4 0) _ (by simp) (by rw [hlen]; rfl) rfl
  have htake : (h16 ++ le4 0 ++ tail).take sizeof_RECORD = h16 ++ le4 0 :=
    take_at _ (h16 ++ le4 0) tail _ rfl
      (by rw [List.length_append, hlen, le4_length]; rfl)
  unfold CFG_checkSum_buf
  rw [hread, hover]
  simp only [htake, Bool.false_eq_true, if_false]

lemma decodeRECORD_shape (buf : List Nat) (i : Nat) (pl : List Nat) (c : Nat)
    (tail : List Nat) (hbuf : buf = le4 i ++ pl ++ le4 c ++ tail)
    (hi : i < 2 ^ 32) (hpl : pl.length = 12) (hc : c < 2 ^ 32) :
    decodeRECORD buf = ⟨i, pl, c⟩ := by
  have hid : le4get buf 0 = i :=
    le4get_at _ [] i (pl ++ (le4 c ++ tail)) _ (by simp [hbuf]) rfl hi
  have hdrop : buf.drop 4 = pl ++ (le4 c ++ tail) := by
    rw [hbuf, List.append_assoc, List.append_assoc]
    exact List.drop_left' (le4_length i)
  have hcrc : le4get buf crc_offset = c :=
    le4get_at _ (le4 i ++ pl) c tail _ (by simp [hbuf])
      (by rw [List.length_append, le4_length, hpl]; rfl) hc
  unfold decodeRECORD
  rw [hid, hdrop, hcrc, List.take_left' hpl]

lemma csumU_cons (a b : Nat) (t : List Nat) : csumU a (b :: t) = csumU (2 * a + b) t := rfl

lemma csumU_append (a : Nat) (x z : List Nat) :
    csumU a (x ++ z) = csumU (csumU a x) z :=
  List.foldl_append ..

lemma csumU_mod : ∀ (l : List Nat) (a : Nat),
    l.foldl (fun s b => (2 * s + b) % 2 ^ 32) (a % 2 ^ 32) = csumU a l % 2 ^ 32
  | [], _ => rfl
  | b :: t, a => by
    show List.foldl _ ((2 * (a % 2 ^ 32) + b) % 2 ^ 32) t = csumU (2 * a + b) t % 2 ^ 32
    have h : (2 * (a % 2 ^ 32) + b) % 2 ^ 32 = (2 * a + b) % 2 ^ 32 := by omega
    rw [h]
    exact csumU_mod t (2 * a + b)

lemma csum32_eq_csumU (l : List Nat) : csum32 l = csumU 117 l % 2 ^ 32 := by
  have h := csumU_mod l 117
  rw [show (117 : Nat) % 2 ^ 32 = 117 by norm_num] at h
  exact h

lemma csumU_affine : ∀ (l : List Nat) (a : Nat),
    csumU a l = a * 2 ^ l.length + csumU 0 l
  | [], a => by simp [csumU]
  | b :: t, a => by
    rw [csumU_cons, csumU_cons, csumU_affine t (2 * a + b), csumU_affine t (2 * 0 + b),
      List.length_cons]
    ring

lemma single_byte_mod_ne (A B k c v : Nat) (hcv : c < v) (hv : v < 256) (hk : k ≤ 24) :
    ((2 * A + c) * 2 ^ k + B) % 2 ^ 32 ≠ ((2 * A + v) * 2 ^ k + B) % 2 ^ 32 := by
  intro heq
  have h1 : (2 * A + c) * 2 ^ k + B ≤ (2 * A + v) * 2 ^ k + B :=
    Nat.add_le_add_right (Nat.mul_le_mul_right _ (by omega)) B
  have hdvd : 2 ^ 32 ∣ ((2 * A + v) * 2 ^ k + B) - ((2 * A + c) * 2 ^ k + B) :=
    (Nat.modEq_iff_dvd' h1).mp heq
  have hdiff : ((2 * A + v) * 2 ^ k + B) - ((2 * A + c) * 2 ^ k + B) =
      (v - c) * 2 ^ k := by
    rw [Nat.add_sub_add_right, ← Nat.sub_mul]
    congr 1
    omega
  rw [hdiff] at hdvd
  have hpos : 0 < (v - c) * 2 ^ k :=
    Nat.mul_pos (by omega) (pow_pos (by norm_num) k)
  have hle : 2 ^ 32 ≤ (v - c) * 2 ^ k := Nat.le_of_dvd hpos hdvd
  have hlt : (v - c) * 2 ^ k < 2 ^ 32 := by
    calc (v - c) * 2 ^ k ≤ 255 * 2 ^ 24 :=
          Nat.mul_le_mul (by omega) (Nat.pow_le_pow_right (by norm_num) hk)
    _ < 2 ^ 32 := by norm_num
  omega

lemma csum32_single_byte (x z : List Nat) (c v : Nat)
    (hc : c < 256) (hv : v < 256) (hne : c ≠ v) (hz : z.length ≤ 24) :
    csum32 (x ++ c :: z) ≠ csum32 (x ++ v :: z) := by
  have hshape : ∀ w, csumU 117 (x ++ w :: z) =
      (2 * csumU 117 x + w) * 2 ^ z.length + csumU 0 z := by
    intro w
    rw [csumU_append, csumU_cons]
    exact csumU_affine z _
  rw [csum32_eq_csumU, csum32_eq_csumU, hshape c, hshape v]
  rcases Nat.lt_or_ge c v with h | h
  · exact single_byte_mod_ne _ _ _ _ _ h hv hz
  · have hvc : v < c := by omega
    exact fun heq => single_byte_mod_ne _ _ _ _ _ hvc hc hz heq.symm

lemma saveRecord_not_writable (s : EState) (p : RECORD) (wok : Bool)
    (h : s.can_write = false) : saveRecord s p wok = (false, s, p) := by
  simp [saveRecord, h]

lemma saveRecord_true (s : EState) (p : RECORD)
    (hw : s.can_write = true) (hwc : s.w_chunk < eeprom_chunks) :
    saveRecord s p true =
      (true,
       { can_write := s.can_write, r_chunk := s.w_chunk,
         w_chunk := if cfg_chunks ≤ s.w_chunk + 1 then 0 else s.w_chunk + 1,
         data := overwrite s.data 0 (encodeRECORD (stampedRECORD p)),
         chunk_in_data := s.w_chunk,
         device := fun j => if j = s.w_chunk then
             overwrite s.data 0 (encodeRECORD (stampedRECORD p))
           else s.device j,
         reads := s.reads },
       stampedRECORD p) := by
  have hn : ¬ (eeprom_chunks ≤ s.w_chunk) := Nat.not_le.mpr hwc
  simp [saveRecord, writeChunk, stampedRECORD, hw, hn]

lemma saveRecord_wfail (s : EState) (p : RECORD)
    (hw : s.can_write = true) (hwc : s.w_chunk < eeprom_chunks) :
    saveRecord s p false =
      (false,
       { s with data := overwrite s.data 0 (encodeRECORD (stampedRECORD p)),
                chunk_in_data := eeprom_chunks },
       stampedRECORD p) := by
  have hn : ¬ (eeprom_chunks ≤ s.w_chunk) := Nat.not_le.mpr hwc
  simp [saveRecord, writeChunk, stampedRECORD, hw, hn]

lemma cfg_chunks_eq : cfg_chunks = 64 := rfl

lemma eeprom_chunks_eq : eeprom_chunks = 128 := rfl

lemma requiredTipSpace_eq : requiredTipSpace = 16 := rfl

lemma tipDataTotal_eq : tipDataTotal = 128 := rfl

lemma overwrite_zero (l bs : List Nat) : overwrite l 0 bs = bs ++ l.drop bs.length := by
  simp [overwrite]

lemma le4get_encode (r : RECORD) (tail : List Nat) (h : r.ID < 2 ^ 32) :
    le4get (encodeRECORD r ++ tail) 0 = r.ID :=
  le4get_at _ [] r.ID (r.payload ++ (le4 r.crc ++ tail)) 0
    (by simp [encodeRECORD]) rfl h

lemma stampedRECORD_ID (p : RECORD) : (stampedRECORD p).ID = (p.ID + 1) % 2 ^ 32 := rfl

lemma stampedRECORD_payload (p : RECORD) : (stampedRECORD p).payload = p.payload := rfl

lemma stampedRECORD_crc (p : RECORD) :
    (stampedRECORD p).crc = cfgChecksumOf { p with ID := (p.ID + 1) % 2 ^ 32 } := rfl

/-- Claim C1 (code-bug evidence): the slot-index bound check of
`loadTipData` and `saveTipData` is non-strict (`>` in the source, not
`>=`), so the out-of-range slot index `tipDataTotal` (the total slot
count, 128) is NOT reported as an index error — contrary to the claimed
valid range `[0, totalSlots)` — while strictly larger indices are. -/
theorem claim1_index_check_off_by_one :
    tipDataTotal = tip_chunks * (eeprom_chunk_size / requiredTipSpace) ∧
    tipDataTotal = 128 ∧
    (∀ (s : EState) (rok : Bool), (loadTipData s rok tipDataTotal).1 ≠ EPR_INDEX) ∧
    (∀ (s : EState) (rok wok : Bool) (tip : List Nat),
      (saveTipData s rok wok tipDataTotal tip).1 ≠ EPR_INDEX) ∧
    (∀ (s : EState) (rok : Bool) (idx : Nat), tipDataTotal < idx →
      (loadTipData s rok idx).1 = EPR_INDEX ∧
      ∀ (wok : Bool) (tip : List Nat), (saveTipData s rok wok idx tip).1 = EPR_INDEX) := by
  refine ⟨rfl, rfl, ?_, ?_, ?_⟩
  · intro s rok
    unfold loadTipData
    rw [if_neg (by rw [tipDataTotal_eq]; norm_num [tip_chunks, eeprom_chunk_size, requiredTipSpace_eq])]
    rcases hrc : readChunk s rok (tipDataTotal / (eeprom_chunk_size / requiredTipSpace) +
        eeprom_chunks - tip_chunks) with ⟨b, s1⟩
    cases b
    · simp [hrc]
    · simp only [hrc]
      split <;> simp
  · intro s rok wok tip
    unfold saveTipData
    rw [if_neg (by rw [tipDataTotal_eq]; norm_num [tip_chunks, eeprom_chunk_size, requiredTipSpace_eq])]
    rcases hrc : readChunk s rok (tipDataTotal / (eeprom_chunk_size / requiredTipSpace) +
        eeprom_chunks - tip_chunks) with ⟨b, s1⟩
    cases b
    · simp [hrc]
    · simp only [hrc]
      rcases hwc : writeChunk _ wok _ with ⟨b2, s2⟩
      cases b2 <;> simp [hwc]
  · intro s rok idx hidx
    rw [tipDataTotal_eq] at hidx
    constructor
    · unfold loadTipData
      rw [if_pos (by norm_num [tip_chunks, eeprom_chunk_size, requiredTipSpace_eq]; omega)]
    · intro wok tip
      unfold saveTipData
      rw [if_pos (by norm_num [tip_chunks, eeprom_chunk_size, requiredTipSpace_eq]; omega)]

/-- Claim C1 witness: on the power-on state, slot index 129 is rejected as
an index error but the out-of-range slot index 128 (= total slot count) is
not. -/
theorem claim1_witness :
    (loadTipData state0 true 129).1 = EPR_INDEX ∧
    (loadTipData state0 true 128).1 ≠ EPR_INDEX :=
  ⟨(claim1_index_check_off_by_one.2.2.2.2 state0 true 129 (by norm_num [tipDataTotal_eq])).1,
   by
    have h := claim1_index_check_off_by_one.2.2.1 state0 true
    rwa [tipDataTotal_eq] at h⟩

/-- Claim C10: a failed `writeChunk` on an in-range index leaves
`chunk_in_data` equal to the dirty sentinel `eeprom_chunks` (128);
`readChunk` tests the cache-hit equality before its bounds check, so in
such a state `readChunk 128` returns success with the stale buffer and no
transport call; and this is reachable through `loadTipData` at slot index
`tipDataTotal` (= 128), which passes the non-strict bounds check and
completes with a non-index, non-I/O status leaving the state — including
the transport read counter and the stale buffer — untouched. -/
theorem claim10_dirty_sentinel_cache_hit :
    eeprom_chunks = 128 ∧ tipDataTotal = 128 ∧
    (∀ (s : EState) (idx : Nat), idx < eeprom_chunks →
      (writeChunk s false idx).1 = false ∧
      (writeChunk s false idx).2.chunk_in_data = eeprom_chunks) ∧
    (∀ (s : EState) (ok : Bool), s.chunk_in_data = eeprom_chunks →
      readChunk s ok eeprom_chunks = (true, s)) ∧
    (∀ (s : EState) (rok : Bool), s.chunk_in_data = eeprom_chunks →
      ((loadTipData s rok tipDataTotal).1 = EPR_OK ∨
        (loadTipData s rok tipDataTotal).1 = EPR_CHECKSUM) ∧
      (loadTipData s rok tipDataTotal).2.2 = s) := by
  have hrc : ∀ (s : EState) (ok : Bool), s.chunk_in_data = eeprom_chunks →
      readChunk s ok eeprom_chunks = (true, s) := by
    intro s ok h
    unfold readChunk
    rw [if_pos h.symm]
  refine ⟨rfl, rfl, ?_, hrc, ?_⟩
  · intro s idx hidx
    unfold writeChunk
    rw [if_neg (Nat.not_le.mpr hidx)]
    simp
  · intro s rok h
    unfold loadTipData
    rw [if_neg (by rw [tipDataTotal_eq]; norm_num [tip_chunks, eeprom_chunk_size, requiredTipSpace_eq])]
    have : tipDataTotal / (eeprom_chunk_size / requiredTipSpace) + eeprom_chunks - tip_chunks =
        eeprom_chunks := by
      rw [tipDataTotal_eq, eeprom_chunks_eq]
      norm_num [eeprom_chunk_size, requiredTipSpace_eq, tip_chunks]
    rw [this]
    simp only [hrc s rok h]
    split <;> simp

/-- Claim C10 witness: after a failed chunk write on the power-on state,
`loadTipData` at slot index 128 completes without an index or I/O error
and without touching the state. -/
theorem claim10_witness :
    ((loadTipData (writeChunk state0 false 3).2 true 128).1 = EPR_OK ∨
      (loadTipData (writeChunk state0 false 3).2 true 128).1 = EPR_CHECKSUM) ∧
    (loadTipData (writeChunk state0 false 3).2 true 128).2.2 =
      (writeChunk state0 false 3).2 := by
  have h := claim10_dirty_sentinel_cache_hit.2.2.2.2 (writeChunk state0 false 3).2 true
    (claim10_dirty_sentinel_cache_hit.2.2.1 state0 3 (by norm_num [eeprom_chunks_eq])).2
  rwa [tipDataTotal_eq] at h

/-- Claim C7 (amended): after a successful `readChunk`, an immediately
following `readChunk` with the same index changes nothing — it succeeds,
returns the very same state (same buffer, no transport read) — and the
pair of calls issues at most one transport read in total. -/
theorem claim7_second_read_is_cache_hit (s : EState) (ok1 ok2 : Bool) (idx : Nat)
    (h : (readChunk s ok1 idx).1 = true) :
    readChunk (readChunk s ok1 idx).2 ok2 idx = (true, (readChunk s ok1 idx).2) ∧
    (readChunk s ok1 idx).2.reads ≤ s.reads + 1 := by
  unfold readChunk at h ⊢
  by_cases h1 : idx = s.chunk_in_data
  · rw [if_pos h1]
    rw [if_pos h1]
    exact ⟨rfl, Nat.le_succ _⟩
  · rw [if_neg h1] at h ⊢
    by_cases h2 : eeprom_chunks ≤ idx
    · rw [if_pos h2] at h
      exact absurd h (by simp)
    · rw [if_neg h2] at h ⊢
      cases ok1
      · exact absurd h (by simp)
      · rw [if_pos rfl]
        exact ⟨by rw [if_pos rfl], Nat.le_refl _⟩

/-- Claim C7 witness: a concrete successful read followed by a second read
of the same chunk leaves the state unchanged. -/
theorem claim7_witness :
    (readChunk state0 true 3).1 = true ∧
    readChunk (readChunk state0 true 3).2 true 3 = (true, (readChunk state0 true 3).2) :=
  ⟨by decide, (claim7_second_read_is_cache_hit state0 true true 3 (by decide)).1⟩

/-- Claim C7 counterexample: when the chunk is already cached before the
first call, two consecutive successful `readChunk` calls with the same
index issue ZERO transport reads, not exactly one as claimed. -/
theorem claim7_counterexample :
    (readChunk { state0 with chunk_in_data := 3 } true 3).1 = true ∧
    (readChunk (readChunk { state0 with chunk_in_data := 3 } true 3).2 true 3).1 = true ∧
    { state0 with chunk_in_data := 3 : EState }.reads = 0 ∧
    (readChunk (readChunk { state0 with chunk_in_data := 3 } true 3).2 true 3).2.reads = 0 ∧
    (0 : Nat) ≠ 1 := by
  refine ⟨by decide, by decide, by decide, by decide, by decide⟩

lemma saveRecord_oob (s : EState) (p : RECORD) (wok : Bool)
    (hw : s.can_write = true) (hwc : eeprom_chunks ≤ s.w_chunk) :
    saveRecord s p wok =
      (false, { s with data := overwrite s.data 0 (encodeRECORD (stampedRECORD p)) },
       stampedRECORD p) := by
  simp [saveRecord, writeChunk, stampedRECORD, hw, hwc]

/-- Claim C5: `saveRecord` with `can_write` unset fails immediately,
changing neither the state (storage, buffer, pointers) nor the caller's
record; a failed chunk write leaves the read/write pointers and the device
unchanged and reports failure; a successful write moves the read pointer
to the old write pointer and advances the write pointer by one modulo the
config region capacity. -/
theorem claim5_save_paths (s : EState) (p : RECORD) (wok : Bool) :
    (s.can_write = false → saveRecord s p wok = (false, s, p)) ∧
    (s.can_write = true →
      ((saveRecord s p wok).1 = false →
        (saveRecord s p wok).2.1.r_chunk = s.r_chunk ∧
        (saveRecord s p wok).2.1.w_chunk = s.w_chunk ∧
        (saveRecord s p wok).2.1.device = s.device) ∧
      (s.w_chunk < cfg_chunks → (saveRecord s p wok).1 = true →
        (saveRecord s p wok).2.1.r_chunk = s.w_chunk ∧
        (saveRecord s p wok).2.1.w_chunk = (s.w_chunk + 1) % cfg_chunks)) := by
  constructor
  · exact saveRecord_not_writable s p wok
  · intro hw
    by_cases hb : eeprom_chunks ≤ s.w_chunk
    · rw [saveRecord_oob s p wok hw hb]
      exact ⟨fun _ => ⟨rfl, rfl, rfl⟩, fun hlt _ => by
        rw [cfg_chunks_eq] at hlt
        rw [eeprom_chunks_eq] at hb
        omega⟩
    · have hwc : s.w_chunk < eeprom_chunks := Nat.lt_of_not_le hb
      cases wok
      · rw [saveRecord_wfail s p hw hwc]
        exact ⟨fun _ => ⟨rfl, rfl, rfl⟩, fun _ h => by simp at h⟩
      · rw [saveRecord_true s p hw hwc]
        refine ⟨fun h => by simp at h, fun hlt _ => ⟨rfl, ?_⟩⟩
        show (if cfg_chunks ≤ s.w_chunk + 1 then 0 else s.w_chunk + 1) =
          (s.w_chunk + 1) % cfg_chunks
        rw [cfg_chunks_eq] at hlt ⊢
        split <;> omega

/-- Claim C5 witness: a successful save on a writable state with the write
pointer at the last config chunk wraps the write pointer to 0 and sets the
read pointer to the old write pointer. -/
theorem claim5_witness :
    (saveRecord { state0 with can_write := true, w_chunk := 63 }
        { ID := 0, payload := List.replicate 12 0, crc := 0 } true).2.1.r_chunk = 63 ∧
    (saveRecord { state0 with can_write := true, w_chunk := 63 }
        { ID := 0, payload := List.replicate 12 0, crc := 0 } true).2.1.w_chunk = (63 + 1) % cfg_chunks ∧
    (saveRecord state0 { ID := 0, payload := List.replicate 12 0, crc := 0 } false).2.1 = state0 := by
  have h5 := claim5_save_paths { state0 with can_write := true, w_chunk := 63 }
    { ID := 0, payload := List.replicate 12 0, crc := 0 } true
  have hs := (h5.2 rfl).2 (by rw [cfg_chunks_eq]; norm_num) (by decide)
  have h0 := (claim5_save_paths state0
    { ID := 0, payload := List.replicate 12 0, crc := 0 } false).1 rfl
  exact ⟨hs.1, hs.2, by rw [h0]⟩

/-- Claim C9: when the store is writable and the chunk write fails,
`saveRecord` has already mutated the caller's record: its `ID` field is
incremented and its `crc` field is overwritten with the freshly computed
checksum; the pointers and `can_write` survive, so an immediately retried
save with the same (now mutated) record succeeds and stores an identifier
2 greater than the record's original one. -/
theorem claim9_failed_write_mutates_record (s : EState) (p : RECORD)
    (hw : s.can_write = true) (hwc : s.w_chunk < eeprom_chunks)
    (hid : p.ID + 2 < 2 ^ 32) :
    (saveRecord s p false).1 = false ∧
    (saveRecord s p false).2.2.ID = p.ID + 1 ∧
    (saveRecord s p false).2.2.crc = cfgChecksumOf { p with ID := p.ID + 1 } ∧
    (saveRecord s p false).2.1.can_write = true ∧
    (saveRecord s p false).2.1.w_chunk = s.w_chunk ∧
    (saveRecord (saveRecord s p false).2.1 (saveRecord s p false).2.2 true).1 = true ∧
    (saveRecord (saveRecord s p false).2.1 (saveRecord s p false).2.2 true).2.2.ID = p.ID + 2 ∧
    le4get ((saveRecord (saveRecord s p false).2.1
        (saveRecord s p false).2.2 true).2.1.device s.w_chunk) 0 = p.ID + 2 := by
  have hmod1 : (p.ID + 1) % 2 ^ 32 = p.ID + 1 := Nat.mod_eq_of_lt (by omega)
  have hid1 : (stampedRECORD p).ID = p.ID + 1 := by rw [stampedRECORD_ID, hmod1]
  have hfail := saveRecord_wfail s p hw hwc
  have hok : (saveRecord s p false).1 = false := by rw [hfail]
  have hret : (saveRecord s p false).2.1 =
      { s with data := overwrite s.data 0 (encodeRECORD (stampedRECORD p)),
               chunk_in_data := eeprom_chunks } := by rw [hfail]
  have hrec : (saveRecord s p false).2.2 = stampedRECORD p := by rw [hfail]
  have hid2 : (stampedRECORD (stampedRECORD p)).ID = p.ID + 2 := by
    rw [stampedRECORD_ID, hid1]
    omega
  refine ⟨hok, by rw [hrec]; exact hid1, ?_, by rw [hret]; exact hw,
    by rw [hret], ?_⟩
  · rw [hrec]
    show cfgChecksumOf { p with ID := (p.ID + 1) % 2 ^ 32 } = _
    rw [hmod1]
  · rw [hret, hrec]
    set S1 : EState :=
      { s with data := overwrite s.data 0 (encodeRECORD (stampedRECORD p)),
               chunk_in_data := eeprom_chunks } with hS1
    have hw' : S1.can_write = true := hw
    have hwc' : S1.w_chunk < eeprom_chunks := hwc
    rw [saveRecord_true S1 (stampedRECORD p) hw' hwc']
    refine ⟨rfl, hid2, ?_⟩
    show le4get (if s.w_chunk = s.w_chunk then _ else _) 0 = p.ID + 2
    rw [if_pos rfl, overwrite_zero]
    rw [le4get_encode _ _ (by rw [hid2]; omega)]
    exact hid2

/-- Claim C9 witness: concrete failed save then successful retry, storing
identifier 2. -/
theorem claim9_witness :
    (saveRecord { state0 with can_write := true }
        { ID := 0, payload := List.replicate 12 0, crc := 0 } false).2.2.ID = 0 + 1 ∧
    le4get ((saveRecord
        (saveRecord { state0 with can_write := true }
          { ID := 0, payload := List.replicate 12 0, crc := 0 } false).2.1
        (saveRecord { state0 with can_write := true }
          { ID := 0, payload := List.replicate 12 0, crc := 0 } false).2.2
        true).2.1.device 0) 0 = 0 + 2 := by
  have h := claim9_failed_write_mutates_record { state0 with can_write := true }
    { ID := 0, payload := List.replicate 12 0, crc := 0 } rfl
    (by decide) (by norm_num)
  exact ⟨h.2.1, h.2.2.2.2.2.2.2⟩

lemma encodeRECORD_length (r : RECORD) (h : r.payload.length = 12) :
    (encodeRECORD r).length = 20 := by
  simp [encodeRECORD, le4, h]

/-- Claim C2 (amended): on a writable store, a successful `saveRecord p`
followed immediately by `loadRecord` returns a record whose payload equals
`p`'s and whose identifier is exactly one greater — in `uint32_t`
arithmetic — than the identifier field of the record argument `p` at the
time of the call (the save increments the caller record's own identifier,
not the previously stored one).  The returned record's checksum field is 0
because validation zeroes it inside the buffer. -/
theorem claim2_save_load_round_trip (s : EState) (p : RECORD) (rok : Bool)
    (hw : s.can_write = true) (hwc : s.w_chunk < eeprom_chunks)
    (hpl : p.payload.length = 12) :
    (saveRecord s p true).1 = true ∧
    (loadRecord (saveRecord s p true).2.1 rok).1 =
      some { ID := (p.ID + 1) % 2 ^ 32, payload := p.payload, crc := 0 } := by
  rw [saveRecord_true s p hw hwc]
  refine ⟨rfl, ?_⟩
  set p2 : RECORD := stampedRECORD p with hp2
  set S : EState :=
    { can_write := s.can_write, r_chunk := s.w_chunk,
      w_chunk := if cfg_chunks ≤ s.w_chunk + 1 then 0 else s.w_chunk + 1,
      data := overwrite s.data 0 (encodeRECORD p2),
      chunk_in_data := s.w_chunk,
      device := fun j => if j = s.w_chunk then overwrite s.data 0 (encodeRECORD p2)
        else s.device j,
      reads := s.reads } with hS
  have hread : readChunk S rok S.r_chunk = (true, S) := by
    unfold readChunk
    rw [if_pos rfl]
  have hid2 : p2.ID = (p.ID + 1) % 2 ^ 32 := stampedRECORD_ID p
  have hbuf : S.data = (le4 p2.ID ++ p.payload) ++ le4 p2.crc ++ s.data.drop 20 := by
    show overwrite s.data 0 (encodeRECORD p2) = _
    rw [overwrite_zero, encodeRECORD_length p2 (by rw [hp2, stampedRECORD_payload]; exact hpl)]
    rw [encodeRECORD, hp2, stampedRECORD_payload]
  have hcsum : p2.crc = csum32 ((le4 p2.ID ++ p.payload) ++ le4 0) := by
    show cfgChecksumOf { p with ID := (p.ID + 1) % 2 ^ 32 } = _
    rw [cfgChecksumOf, encodeRECORD]
    rw [hp2]
    simp [stampedRECORD, List.append_assoc]
  have hchk : CFG_checkSum_buf S.data false =
      (true, (le4 p2.ID ++ p.payload) ++ le4 0 ++ s.data.drop 20) := by
    have hc32 : p2.crc < 2 ^ 32 := by
      rw [hp2, stampedRECORD_crc]
      exact cfgChecksumOf_lt _
    have hl16 : (le4 p2.ID ++ p.payload).length = 16 := by
      rw [List.length_append, le4_length, hpl]
    rw [CFG_checkSum_buf_shape S.data (le4 p2.ID ++ p.payload) (s.data.drop 20) p2.crc hbuf
      hl16 hc32]
    rw [← hcsum]
    simp
  have hdec : decodeRECORD (le4 p2.ID ++ (p.payload ++ (le4 0 ++ s.data.drop 20))) =
      { ID := (p.ID + 1) % 2 ^ 32, payload := p.payload, crc := 0 } := by
    have h4 : le4 0 = le4 (0 : Nat) := rfl
    rw [← hid2]
    exact decodeRECORD_shape _ p2.ID p.payload 0 (s.data.drop 20)
      (by simp [List.append_assoc]) (by rw [hid2]; exact Nat.mod_lt _ (by norm_num)) hpl
      (by norm_num)
  unfold loadRecord
  rw [hread]
  simp [hchk, hdec]

/-- Claim C2 counterexample: the stored identifier before the save is 5,
the caller's record argument has identifier 10, and the save-then-load
round trip yields identifier 11 = 10 + 1 — not 6 = 5 + 1 as the claim
(one greater than "the identifier stored before the save") requires. -/
theorem claim2_counterexample :
    le4get (c2store.device c2store.r_chunk) 0 = 5 ∧
    (loadRecord c2store true).1 =
      some { ID := 5, payload := List.replicate 12 1, crc := 0 } ∧
    (saveRecord c2store { ID := 10, payload := List.replicate 12 7, crc := 0 } true).1 = true ∧
    (loadRecord (saveRecord c2store
        { ID := 10, payload := List.replicate 12 7, crc := 0 } true).2.1 true).1 =
      some { ID := 11, payload := List.replicate 12 7, crc := 0 } ∧
    (11 : Nat) ≠ 5 + 1 := by
  refine ⟨by decide, by decide, by decide, by decide, by decide⟩

/-- Claim C2 witness: the amended round trip at a concrete writable state
and record. -/
theorem claim2_witness :
    (saveRecord { state0 with can_write := true }
        { ID := 41, payload := List.replicate 12 9, crc := 0 } true).1 = true ∧
    (loadRecord (saveRecord { state0 with can_write := true }
        { ID := 41, payload := List.replicate 12 9, crc := 0 } true).2.1 true).1 =
      some { ID := (41 + 1) % 2 ^ 32, payload := List.replicate 12 9, crc := 0 } :=
  claim2_save_load_round_trip { state0 with can_write := true }
    { ID := 41, payload := List.replicate 12 9, crc := 0 } true rfl
    (by decide) (by decide)

/-- Claim C6 (code-bug evidence): `CFG_checkSum` zeroes the record's
checksum field inside the chunk buffer even on a pure validation
(`write = false`), so after one successful `loadRecord` the cache is
marked valid for an in-range chunk index while the buffer is NOT
byte-identical to the device content at that index — and, as a
consequence, an immediately repeated `loadRecord` fails although the
device still holds a valid record. -/
theorem claim6_cache_coherence_violated :
    (loadRecord c6store true).1 =
      some { ID := 7, payload := List.replicate 12 3, crc := 0 } ∧
    (loadRecord c6store true).2.chunk_in_data = 0 ∧
    (0 : Nat) < eeprom_chunks ∧
    (loadRecord c6store true).2.data ≠ (loadRecord c6store true).2.device 0 ∧
    (loadRecord (loadRecord c6store true).2 true).1 = none := by
  refine ⟨by decide, by decide, by decide, by decide, by decide⟩

lemma le4_mem_lt (n b : Nat) (h : b ∈ le4 n) : b < 256 := by
  simp [le4] at h
  rcases h with h | h | h | h <;> omega

/-- Claim C3: corrupting any single byte of a stored checksum-valid
record outside its checksum field (byte positions 0-15 of the modelled
20-byte layout: identifier and payload bytes, the corruption written as a
decomposition `x ++ c :: y` of those 16 bytes with `c` replaced by
`v ≠ c`) makes the next `loadRecord` — a fresh read with the cache empty
and the transport succeeding — report failure (`none`) instead of
returning the corrupted data. -/
theorem claim3_single_byte_corruption_rejected (s : EState) (r : RECORD)
    (x y tail : List Nat) (c v : Nat)
    (hr : s.r_chunk < eeprom_chunks) (hcache : s.chunk_in_data = no_chunk)
    (hb : ∀ b ∈ r.payload, b < 256) (hpl : r.payload.length = 12)
    (hsplit : le4 r.ID ++ r.payload = x ++ c :: y)
    (hv : v < 256) (hne : v ≠ c)
    (hdev : s.device s.r_chunk = (x ++ v :: y) ++ le4 (cfgChecksumOf r) ++ tail) :
    (loadRecord s true).1 = none := by
  have hS32 : cfgChecksumOf r < 2 ^ 32 := cfgChecksumOf_lt r
  have hxy : x.length + 1 + y.length = 16 := by
    have h := congrArg List.length hsplit
    rw [List.length_append, List.length_append, le4_length, hpl, List.length_cons] at h
    omega
  have hylen : (y ++ le4 0).length ≤ 24 := by
    rw [List.length_append, le4_length]
    omega
  have hc256 : c < 256 := by
    have hmem : c ∈ le4 r.ID ++ r.payload := by
      rw [hsplit]
      simp
    rcases List.mem_append.mp hmem with h | h
    · exact le4_mem_lt r.ID c h
    · exact hb c h
  have hSne : cfgChecksumOf r ≠ csum32 ((x ++ v :: y) ++ le4 0) := by
    have h1 : cfgChecksumOf r = csum32 (x ++ c :: (y ++ le4 0)) := by
      rw [cfgChecksumOf, encodeRECORD]
      show csum32 (le4 r.ID ++ r.payload ++ le4 0) = _
      congr 1
      rw [hsplit]
      simp [List.append_assoc]
    have h2 : csum32 ((x ++ v :: y) ++ le4 0) = csum32 (x ++ v :: (y ++ le4 0)) := by
      congr 1
      simp [List.append_assoc]
    rw [h1, h2]
    exact csum32_single_byte x (y ++ le4 0) c v hc256 hv (Ne.symm hne) hylen
  have hread : readChunk s true s.r_chunk =
      (true, { s with data := s.device s.r_chunk, chunk_in_data := s.r_chunk,
                      reads := s.reads + 1 }) := by
    unfold readChunk
    rw [if_neg (by rw [hcache]; rw [eeprom_chunks_eq] at hr; simp [no_chunk]; omega),
      if_neg (Nat.not_le.mpr hr), if_pos rfl]
  have hchk : CFG_checkSum_buf (s.device s.r_chunk) false =
      (false, (x ++ v :: y) ++ le4 0 ++ tail) := by
    rw [CFG_checkSum_buf_shape (s.device s.r_chunk) (x ++ v :: y) tail (cfgChecksumOf r) hdev
      (by rw [List.length_append, List.length_cons]; omega) hS32]
    rw [decide_eq_false hSne]
  unfold loadRecord
  rw [hread]
  simp [hchk]

/-- Claim C3 witness: the corrupted stored record is rejected by the next
load. -/
theorem claim3_witness : (loadRecord c3store true).1 = none :=
  claim3_single_byte_corruption_rejected c3store
    { ID := 7, payload := List.replicate 12 3, crc := 0 }
    [] ([0, 0, 0] ++ List.replicate 12 3) (List.replicate 12 0) 7 135
    (by decide) rfl (by decide) (by decide) (by decide) (by decide) (by decide) rfl

lemma iterSaves_inv : ∀ (k j : Nat) (s : EState) (p : RECORD),
    s.can_write = true → s.w_chunk = j % cfg_chunks → j + k ≤ cfg_chunks →
    p.ID + k < 2 ^ 32 →
    (iterSaves k s p).1.can_write = true ∧
    (iterSaves k s p).1.w_chunk = (j + k) % cfg_chunks ∧
    (iterSaves k s p).2.ID = p.ID + k ∧
    (∀ i, i < k → le4get ((iterSaves k s p).1.device (j + i)) 0 = p.ID + 1 + i) ∧
    (∀ ch, ch < j → (iterSaves k s p).1.device ch = s.device ch)
  | 0, j, s, p => by
    intro hw hj _ _
    exact ⟨hw, by rw [iterSaves, hj, Nat.add_zero], by simp [iterSaves],
      fun i hi => absurd hi (by omega), fun ch _ => by rw [iterSaves]⟩
  | k + 1, j, s, p => by
    intro hw hj hjk hid
    have hjlt : j < cfg_chunks := by rw [cfg_chunks_eq] at hjk ⊢; omega
    have hj64 : j < 64 := by rw [cfg_chunks_eq] at hjlt; exact hjlt
    have hjj : j % cfg_chunks = j := Nat.mod_eq_of_lt hjlt
    have hwj : s.w_chunk = j := by rw [hj, hjj]
    have hwc : s.w_chunk < eeprom_chunks := by
      rw [hwj, eeprom_chunks_eq]
      rw [cfg_chunks_eq] at hjlt
      omega
    have hsv := saveRecord_true s p hw hwc
    have hs1 : (saveRecord s p true).2.1 =
        { can_write := s.can_write, r_chunk := s.w_chunk,
          w_chunk := if cfg_chunks ≤ s.w_chunk + 1 then 0 else s.w_chunk + 1,
          data := overwrite s.data 0 (encodeRECORD (stampedRECORD p)),
          chunk_in_data := s.w_chunk,
          device := fun j2 => if j2 = s.w_chunk then
              overwrite s.data 0 (encodeRECORD (stampedRECORD p))
            else s.device j2,
          reads := s.reads } := by rw [hsv]
    have hp1 : (saveRecord s p true).2.2 = stampedRECORD p := by rw [hsv]
    have hpid : (stampedRECORD p).ID = p.ID + 1 := by
      rw [stampedRECORD_ID]
      exact Nat.mod_eq_of_lt (by omega)
    have hstep : iterSaves (k + 1) s p =
        iterSaves k (saveRecord s p true).2.1 (saveRecord s p true).2.2 := rfl
    have hih := iterSaves_inv k (j + 1) (saveRecord s p true).2.1 (saveRecord s p true).2.2
      (by rw [hs1]; exact hw)
      (by
        rw [hs1]
        show (if cfg_chunks ≤ s.w_chunk + 1 then 0 else s.w_chunk + 1) = (j + 1) % cfg_chunks
        rw [hwj, cfg_chunks_eq]
        split <;> omega)
      (by omega)
      (by rw [hp1, hpid]; omega)
    rw [hstep]
    obtain ⟨ih1, ih2, ih3, ih4, ih5⟩ := hih
    refine ⟨ih1, by rw [ih2]; congr 1; omega, by rw [ih3, hp1, hpid]; omega, ?_, ?_⟩
    · intro i hi
      cases i with
      | zero =>
        rw [Nat.add_zero]
        rw [ih5 j (by omega), hs1]
        show le4get (if j = s.w_chunk then _ else _) 0 = p.ID + 1 + 0
        rw [if_pos hwj.symm, overwrite_zero,
          le4get_encode _ _ (by rw [hpid]; omega), hpid]
      | succ i2 =>
        rw [show j + (i2 + 1) = j + 1 + i2 by omega, ih4 i2 (by omega), hp1, hpid]
        omega
    · intro ch hch
      rw [ih5 ch (by omega), hs1]
      show (if ch = s.w_chunk then _ else _) = s.device ch
      rw [if_neg (by omega)]

/-- Claim C8: starting from a writable store with the write pointer at the
region's first chunk (as established by `EEPROM_init` on an empty config
region), after exactly `cfg_chunks` (64) consecutive successful
`saveRecord` calls the write pointer equals 0 again; config chunk `j`
then holds identifier `p.ID + 1 + j`, so chunk 0 holds the smallest
identifier; and the next save overwrites chunk 0, storing identifier
`p.ID + 65` there. -/
theorem claim8_wraparound (s : EState) (p : RECORD)
    (hw : s.can_write = true) (hw0 : s.w_chunk = 0)
    (hid : p.ID + 65 < 2 ^ 32) :
    (iterSaves cfg_chunks s p).1.w_chunk = 0 ∧
    (∀ j, j < cfg_chunks →
      le4get ((iterSaves cfg_chunks s p).1.device j) 0 = p.ID + 1 + j) ∧
    (∀ j, j < cfg_chunks →
      le4get ((iterSaves cfg_chunks s p).1.device 0) 0 ≤
        le4get ((iterSaves cfg_chunks s p).1.device j) 0) ∧
    (saveRecord (iterSaves cfg_chunks s p).1 (iterSaves cfg_chunks s p).2 true).1 = true ∧
    le4get ((saveRecord (iterSaves cfg_chunks s p).1
        (iterSaves cfg_chunks s p).2 true).2.1.device 0) 0 = p.ID + 65 := by
  have hinv := iterSaves_inv cfg_chunks 0 s p hw (by rw [hw0, Nat.zero_mod]) (by omega)
    (by rw [cfg_chunks_eq]; omega)
  revert hinv
  generalize iterSaves cfg_chunks s p = IT
  intro hinv
  obtain ⟨h1, h2, h3, h4, _⟩ := hinv
  have hwz : IT.1.w_chunk = 0 := by
    rw [h2, Nat.zero_add, Nat.mod_self]
  have hdev : ∀ j, j < cfg_chunks →
      le4get (IT.1.device j) 0 = p.ID + 1 + j := by
    intro j hj
    have := h4 j hj
    rwa [Nat.zero_add] at this
  refine ⟨hwz, hdev, ?_, ?_, ?_⟩
  · intro j hj
    rw [hdev 0 (by rw [cfg_chunks_eq]; omega), hdev j hj]
    omega
  · have := saveRecord_true IT.1 IT.2 h1 (by rw [hwz, eeprom_chunks_eq]; omega)
    rw [this]
  · have hsv := saveRecord_true IT.1 IT.2 h1 (by rw [hwz, eeprom_chunks_eq]; omega)
    rw [hsv]
    show le4get (if 0 = IT.1.w_chunk then _ else _) 0 = p.ID + 65
    rw [if_pos hwz.symm, overwrite_zero,
      le4get_encode _ _ (by rw [stampedRECORD_ID, h3]; exact Nat.mod_lt _ (by norm_num))]
    rw [stampedRECORD_ID, h3]
    rw [cfg_chunks_eq]
    omega

/-- Claim C8 witness: the wraparound theorem applied at a concrete empty
writable store with initial record identifier 0. -/
theorem claim8_witness :
    (iterSaves cfg_chunks { state0 with can_write := true }
      { ID := 0, payload := List.replicate 12 0, crc := 0 }).1.w_chunk = 0 ∧
    le4get ((saveRecord
        (iterSaves cfg_chunks { state0 with can_write := true }
          { ID := 0, payload := List.replicate 12 0, crc := 0 }).1
        (iterSaves cfg_chunks { state0 with can_write := true }
          { ID := 0, payload := List.replicate 12 0, crc := 0 }).2 true).2.1.device 0) 0 =
      0 + 65 := by
  have h := claim8_wraparound { state0 with can_write := true }
    { ID := 0, payload := List.replicate 12 0, crc := 0 } rfl rfl (by norm_num)
  exact ⟨h.1, h.2.2.2.2⟩

lemma foldl_max_le_init : ∀ (P : List Nat) (a : Nat), a ≤ P.foldl max a
  | [], a => le_refl a
  | x :: t, a => le_trans (le_max_left a x) (foldl_max_le_init t (max a x))

lemma foldl_max_le_mem : ∀ (P : List Nat) (a y : Nat), y ∈ P → y ≤ P.foldl max a
  | [], _, y, h => absurd h (List.not_mem_nil y)
  | x :: t, a, y, h => by
    rcases List.mem_cons.mp h with rfl | h2
    · exact le_trans (le_max_right a y) (foldl_max_le_init t _)
    · exact foldl_max_le_mem t _ y h2

lemma foldl_max_mem : ∀ (P : List Nat) (a : Nat), P.foldl max a = a ∨ P.foldl max a ∈ P
  | [], _ => Or.inl rfl
  | x :: t, a => by
    rw [List.foldl_cons]
    rcases foldl_max_mem t (max a x) with h | h
    · rw [h]
      rcases max_choice a x with h2 | h2
      · exact Or.inl h2
      · exact Or.inr (by rw [h2]; exact List.mem_cons_self x t)
    · exact Or.inr (List.mem_cons_of_mem x h)

lemma foldl_max_mem_of_ne (L : List Nat) (hne : L ≠ []) : L.foldl max 0 ∈ L := by
  rcases foldl_max_mem L 0 with h | h
  · rcases L with _ | ⟨x, t⟩
    · exact absurd rfl hne
    · have hx := foldl_max_le_mem (x :: t) 0 x (List.mem_cons_self x t)
      rw [h] at hx
      rw [h, ← Nat.le_zero.mp hx]
      exact List.mem_cons_self x t
  · exact h

lemma foldl_min_le_init : ∀ (P : List Nat) (a : Nat), P.foldl min a ≤ a
  | [], a => le_refl a
  | x :: t, a => le_trans (foldl_min_le_init t (min a x)) (min_le_left a x)

lemma foldl_min_le_mem : ∀ (P : List Nat) (a y : Nat), y ∈ P → P.foldl min a ≤ y
  | [], _, y, h => absurd h (List.not_mem_nil y)
  | x :: t, a, y, h => by
    rcases List.mem_cons.mp h with rfl | h2
    · exact le_trans (foldl_min_le_init t _) (min_le_right a y)
    · exact foldl_min_le_mem t _ y h2

lemma foldl_min_mem : ∀ (P : List Nat) (a : Nat), P.foldl min a = a ∨ P.foldl min a ∈ P
  | [], _ => Or.inl rfl
  | x :: t, a => by
    rw [List.foldl_cons]
    rcases foldl_min_mem t (min a x) with h | h
    · rw [h]
      rcases min_choice a x with h2 | h2
      · exact Or.inl h2
      · exact Or.inr (by rw [h2]; exact List.mem_cons_self x t)
    · exact Or.inr (List.mem_cons_of_mem x h)

lemma foldl_min_mem_of_bounded (L : List Nat) (hne : L ≠ [])
    (hb : ∀ id ∈ L, id < 2 ^ 32) : L.foldl min (2 ^ 32 - 1) ∈ L := by
  rcases foldl_min_mem L (2 ^ 32 - 1) with h | h
  · rcases L with _ | ⟨x, t⟩
    · exact absurd rfl hne
    · have hx := foldl_min_le_mem (x :: t) (2 ^ 32 - 1) x (List.mem_cons_self x t)
      rw [h] at hx
      have hxlt := hb x (List.mem_cons_self x t)
      have hxe : x = 2 ^ 32 - 1 := by omega
      rw [h, ← hxe]
      exact List.mem_cons_self x t
  · exact h

lemma firstIdx_append_of_mem : ∀ (P Q : List Nat) (v : Nat), v ∈ P →
    firstIdx (P ++ Q) v = firstIdx P v
  | [], _, v, h => absurd h (List.not_mem_nil v)
  | x :: t, Q, v, h => by
    rw [List.cons_append]
    show (if x = v then 0 else firstIdx (t ++ Q) v + 1) =
      (if x = v then 0 else firstIdx t v + 1)
    by_cases hx : x = v
    · rw [if_pos hx, if_pos hx]
    · rw [if_neg hx, if_neg hx, firstIdx_append_of_mem t Q v
        (by rcases List.mem_cons.mp h with h2 | h2; exact absurd h2.symm hx; exact h2)]

lemma firstIdx_append_not_mem : ∀ (P Q : List Nat) (v : Nat), v ∉ P →
    firstIdx (P ++ v :: Q) v = P.length
  | [], Q, v, _ => by
    show (if v = v then 0 else _) = 0
    rw [if_pos rfl]
  | x :: t, Q, v, h => by
    rw [List.cons_append]
    show (if x = v then 0 else firstIdx (t ++ v :: Q) v + 1) = t.length + 1
    rw [if_neg (fun hx => h (List.mem_cons.mpr (Or.inl hx.symm))),
      firstIdx_append_not_mem t Q v (fun h2 => h (List.mem_cons_of_mem x h2))]

lemma firstIdx_lt_length : ∀ (L : List Nat) (v : Nat), v ∈ L →
    firstIdx L v < L.length
  | [], v, h => absurd h (List.not_mem_nil v)
  | x :: t, v, h => by
    show (if x = v then 0 else firstIdx t v + 1) < t.length + 1
    by_cases hx : x = v
    · rw [if_pos hx]
      omega
    · rw [if_neg hx]
      have := firstIdx_lt_length t v
        (by rcases List.mem_cons.mp h with h2 | h2; exact absurd h2.symm hx; exact h2)
      omega

lemma accStep_records (acc : ScanAcc) (ch id : Nat) :
    (accStep acc ch id).records = acc.records + 1 := by
  simp only [accStep]
  split <;> split <;> rfl

lemma accStep_max_ID (acc : ScanAcc) (ch id : Nat) :
    (accStep acc ch id).max_rec_ID = if acc.max_rec_ID < id then id else acc.max_rec_ID := by
  simp only [accStep]
  split <;> split <;> rfl

lemma accStep_max_ch (acc : ScanAcc) (ch id : Nat) :
    (accStep acc ch id).max_rec_ch = if acc.max_rec_ID < id then ch else acc.max_rec_ch := by
  simp only [accStep]
  split <;> split <;> rfl

lemma accStep_min_ID (acc : ScanAcc) (ch id : Nat) :
    (accStep acc ch id).min_rec_ID = if id < acc.min_rec_ID then id else acc.min_rec_ID := by
  simp only [accStep]
  split <;> split <;> rfl

lemma accStep_min_ch (acc : ScanAcc) (ch id : Nat) :
    (accStep acc ch id).min_rec_ch = if id < acc.min_rec_ID then ch else acc.min_rec_ch := by
  simp only [accStep]
  split <;> split <;> rfl

lemma foldIdx_records : ∀ (L : List Nat) (n : Nat) (acc : ScanAcc),
    (foldIdx n acc L).records = acc.records + L.length
  | [], _, _ => by rw [foldIdx, List.length_nil, Nat.add_zero]
  | id :: t, n, acc => by
    rw [foldIdx, foldIdx_records t (n + 1) _, accStep_records, List.length_cons]
    omega

lemma firstIdx_not_mem : ∀ (L : List Nat) (v : Nat), v ∉ L → firstIdx L v = L.length
  | [], _, _ => rfl
  | x :: t, v, h => by
    show (if x = v then 0 else firstIdx t v + 1) = t.length + 1
    rw [if_neg (fun hx => h (List.mem_cons.mpr (Or.inl hx.symm))),
      firstIdx_not_mem t v (fun h2 => h (List.mem_cons_of_mem x h2))]

lemma foldIdx_max : ∀ (L P : List Nat) (acc : ScanAcc),
    acc.max_rec_ID = P.foldl max 0 →
    acc.max_rec_ch = firstIdx P (P.foldl max 0) →
    (foldIdx P.length acc L).max_rec_ID = (P ++ L).foldl max 0 ∧
    (foldIdx P.length acc L).max_rec_ch = firstIdx (P ++ L) ((P ++ L).foldl max 0)
  | [], P, acc => by
    intro h1 h2
    rw [foldIdx, List.append_nil]
    exact ⟨h1, h2⟩
  | id :: t, P, acc => by
    intro h1 h2
    rw [foldIdx]
    have hfold : (P ++ [id]).foldl max 0 = max (P.foldl max 0) id := by
      rw [List.foldl_append, List.foldl_cons, List.foldl_nil]
    have hlen : (P ++ [id]).length = P.length + 1 := by
      rw [List.length_append, List.length_singleton]
    have happ : P ++ id :: t = (P ++ [id]) ++ t := by
      rw [List.append_assoc, List.singleton_append]
    have hmaxID : (accStep acc P.length id).max_rec_ID = (P ++ [id]).foldl max 0 := by
      rw [accStep_max_ID, h1, hfold]
      rcases Nat.lt_or_ge (P.foldl max 0) id with h | h
      · rw [if_pos h]
        omega
      · rw [if_neg (Nat.not_lt.mpr h)]
        omega
    have hmaxCh : (accStep acc P.length id).max_rec_ch =
        firstIdx (P ++ [id]) ((P ++ [id]).foldl max 0) := by
      rw [accStep_max_ch, h1, hfold]
      rcases Nat.lt_or_ge (P.foldl max 0) id with h | h
      · rw [if_pos h]
        have hmax : max (P.foldl max 0) id = id := by omega
        rw [hmax]
        have hnm : id ∉ P := fun hm => absurd (foldl_max_le_mem P 0 id hm) (by omega)
        rw [firstIdx_append_not_mem P [] id hnm]
      · rw [if_neg (Nat.not_lt.mpr h)]
        have hmax : max (P.foldl max 0) id = P.foldl max 0 := by omega
        rw [hmax, h2]
        rcases eq_or_ne P ([] : List Nat) with rfl | hPne
        · have hid0 : id = 0 := by
            rw [List.foldl_nil] at h
            omega
          subst hid0
          rfl
        · have hmem : P.foldl max 0 ∈ P := foldl_max_mem_of_ne P hPne
          rw [firstIdx_append_of_mem P [id] _ hmem]
    have hrec := foldIdx_max t (P ++ [id]) (accStep acc P.length id) hmaxID hmaxCh
    rw [hlen] at hrec
    rw [happ]
    exact hrec

lemma foldIdx_min : ∀ (L P : List Nat) (acc : ScanAcc),
    (∀ id ∈ L, id < 2 ^ 32) → (∀ id ∈ P, id < 2 ^ 32) →
    acc.min_rec_ID = P.foldl min (2 ^ 32 - 1) →
    acc.min_rec_ch = firstIdx P (P.foldl min (2 ^ 32 - 1)) →
    (foldIdx P.length acc L).min_rec_ID = (P ++ L).foldl min (2 ^ 32 - 1) ∧
    (foldIdx P.length acc L).min_rec_ch = firstIdx (P ++ L) ((P ++ L).foldl min (2 ^ 32 - 1))
  | [], P, acc => by
    intro _ _ h1 h2
    rw [foldIdx, List.append_nil]
    exact ⟨h1, h2⟩
  | id :: t, P, acc => by
    intro hbl hbp h1 h2
    rw [foldIdx]
    have hid32 : id < 2 ^ 32 := hbl id (List.mem_cons_self id t)
    have hfold : (P ++ [id]).foldl min (2 ^ 32 - 1) = min (P.foldl min (2 ^ 32 - 1)) id := by
      rw [List.foldl_append, List.foldl_cons, List.foldl_nil]
    have hlen : (P ++ [id]).length = P.length + 1 := by
      rw [List.length_append, List.length_singleton]
    have happ : P ++ id :: t = (P ++ [id]) ++ t := by
      rw [List.append_assoc, List.singleton_append]
    have hminID : (accStep acc P.length id).min_rec_ID =
        (P ++ [id]).foldl min (2 ^ 32 - 1) := by
      rw [accStep_min_ID, h1, hfold]
      rcases Nat.lt_or_ge id (P.foldl min (2 ^ 32 - 1)) with h | h
      · rw [if_pos h]
        omega
      · rw [if_neg (Nat.not_lt.mpr h)]
        omega
    have hminCh : (accStep acc P.length id).min_rec_ch =
        firstIdx (P ++ [id]) ((P ++ [id]).foldl min (2 ^ 32 - 1)) := by
      rw [accStep_min_ch, h1, hfold]
      rcases Nat.lt_or_ge id (P.foldl min (2 ^ 32 - 1)) with h | h
      · rw [if_pos h]
        have hmin : min (P.foldl min (2 ^ 32 - 1)) id = id := by omega
        rw [hmin]
        have hnm : id ∉ P := fun hm =>
          absurd (foldl_min_le_mem P (2 ^ 32 - 1) id hm) (by omega)
        rw [firstIdx_append_not_mem P [] id hnm]
      · rw [if_neg (Nat.not_lt.mpr h)]
        have hmin : min (P.foldl min (2 ^ 32 - 1)) id = P.foldl min (2 ^ 32 - 1) := by omega
        rw [hmin, h2]
        by_cases hmem : P.foldl min (2 ^ 32 - 1) ∈ P
        · rw [firstIdx_append_of_mem P [id] _ hmem]
        · have hM : P.foldl min (2 ^ 32 - 1) = 2 ^ 32 - 1 := by
            rcases foldl_min_mem P (2 ^ 32 - 1) with hh | hh
            · exact hh
            · exact absurd hh hmem
          have hidM : id = 2 ^ 32 - 1 := by
            rw [hM] at h
            omega
          have hMnm : (2 ^ 32 - 1 : Nat) ∉ P := by
            rw [← hM]
            exact hmem
          have hidnm : id ∉ P := by
            rw [hidM]
            exact hMnm
          rw [hM, firstIdx_not_mem P _ hMnm, ← hidM,
            firstIdx_append_not_mem P [] id hidnm]
    have hrec := foldIdx_min t (P ++ [id]) (accStep acc P.length id)
      (fun y hy => hbl y (List.mem_cons_of_mem id hy))
      (fun y hy => by
        rcases List.mem_append.mp hy with hy2 | hy2
        · exact hbp y hy2
        · rw [List.mem_singleton.mp hy2]
          exact hid32)
      hminID hminCh
    rw [hlen] at hrec
    rw [happ]
    exact hrec

lemma initLoop_foldIdx (ro : Nat → Bool) : ∀ (fuel chunk : Nat) (acc : ScanAcc) (s : EState),
    (initLoop ro fuel chunk acc s).1 = foldIdx chunk acc (scanIDsAux ro fuel chunk s)
  | 0, _, _, _ => rfl
  | fuel + 1, chunk, acc, s => by
    rw [initLoop, scanIDsAux]
    rcases hrc : readChunk s (ro chunk) chunk with ⟨b, s1⟩
    cases b
    · simp only
      rfl
    · simp only
      rcases hck : CFG_checkSum_buf s1.data false with ⟨valid, buf⟩
      cases valid
      · simp only [Bool.false_eq_true, if_false]
        rfl
      · simp only [if_true]
        rw [foldIdx]
        exact initLoop_foldIdx ro fuel (chunk + 1) _ _

/-- Claim C4: `EEPROM_init` scans config chunks from index 0 upward and
stops at the first chunk that fails to read or fails checksum validation;
writing `L` for the identifiers of the accepted prefix (`scanIDs`): with
zero valid records the read and write pointers are both 0 and the store
becomes writable; otherwise the read pointer is the chunk holding the
maximum identifier (the first chunk attaining it), and the write pointer
is read pointer + 1 wrapped modulo the region capacity when fewer than
`cfg_chunks` records were found, and the chunk holding the minimum
identifier when the region is full.  The stated fold expressions are the
true maximum/minimum: they are attained in `L` and bound every element. -/
theorem claim4_init_scan_pointers (s : EState) (ro : Nat → Bool)
    (hbound : ∀ id ∈ scanIDs s ro, id < 2 ^ 32) :
    (EEPROM_init s ro).can_write = true ∧
    (scanIDs s ro = [] →
      (EEPROM_init s ro).r_chunk = 0 ∧ (EEPROM_init s ro).w_chunk = 0) ∧
    (scanIDs s ro ≠ [] →
      ((scanIDs s ro).foldl max 0 ∈ scanIDs s ro ∧
        ∀ id ∈ scanIDs s ro, id ≤ (scanIDs s ro).foldl max 0) ∧
      ((scanIDs s ro).foldl min (2 ^ 32 - 1) ∈ scanIDs s ro ∧
        ∀ id ∈ scanIDs s ro, (scanIDs s ro).foldl min (2 ^ 32 - 1) ≤ id) ∧
      (EEPROM_init s ro).r_chunk = firstIdx (scanIDs s ro) ((scanIDs s ro).foldl max 0) ∧
      ((scanIDs s ro).length < cfg_chunks →
        (EEPROM_init s ro).w_chunk = ((EEPROM_init s ro).r_chunk + 1) % cfg_chunks) ∧
      ((scanIDs s ro).length = cfg_chunks →
        (EEPROM_init s ro).w_chunk =
          firstIdx (scanIDs s ro) ((scanIDs s ro).foldl min (2 ^ 32 - 1)))) := by
  have hfold := initLoop_foldIdx ro cfg_chunks 0 ⟨2 ^ 32 - 1, 0, 0, 0, 0⟩ s
  have hL : scanIDsAux ro cfg_chunks 0 s = scanIDs s ro := rfl
  rw [hL] at hfold
  have hrec : (initLoop ro cfg_chunks 0 ⟨2 ^ 32 - 1, 0, 0, 0, 0⟩ s).1.records =
      (scanIDs s ro).length := by
    rw [hfold, foldIdx_records]
    simp
  have hmax := foldIdx_max (scanIDs s ro) [] ⟨2 ^ 32 - 1, 0, 0, 0, 0⟩ rfl rfl
  have hmin := foldIdx_min (scanIDs s ro) [] ⟨2 ^ 32 - 1, 0, 0, 0, 0⟩ hbound
    (fun y hy => absurd hy (List.not_mem_nil y)) rfl rfl
  rw [List.nil_append] at hmax hmin
  have hmaxID : (initLoop ro cfg_chunks 0 ⟨2 ^ 32 - 1, 0, 0, 0, 0⟩ s).1.max_rec_ID =
      (scanIDs s ro).foldl max 0 := by
    rw [hfold]
    exact hmax.1
  have hmaxCh : (initLoop ro cfg_chunks 0 ⟨2 ^ 32 - 1, 0, 0, 0, 0⟩ s).1.max_rec_ch =
      firstIdx (scanIDs s ro) ((scanIDs s ro).foldl max 0) := by
    rw [hfold]
    exact hmax.2
  have hminCh : (initLoop ro cfg_chunks 0 ⟨2 ^ 32 - 1, 0, 0, 0, 0⟩ s).1.min_rec_ch =
      firstIdx (scanIDs s ro) ((scanIDs s ro).foldl min (2 ^ 32 - 1)) := by
    rw [hfold]
    exact hmin.2
  simp only [EEPROM_init]
  rcases eq_or_ne (scanIDs s ro) ([] : List Nat) with hnil | hne
  · rw [if_pos (by rw [hrec, hnil, List.length_nil])]
    exact ⟨rfl, fun _ => ⟨rfl, rfl⟩, fun h => absurd hnil h⟩
  · rw [if_neg (by
      rw [hrec]
      intro h0
      exact hne (List.eq_nil_of_length_eq_zero h0))]
    refine ⟨rfl, fun h => absurd h hne, fun _ => ?_⟩
    have hmaxmem : (scanIDs s ro).foldl max 0 ∈ scanIDs s ro :=
      foldl_max_mem_of_ne _ hne
    have hminmem : (scanIDs s ro).foldl min (2 ^ 32 - 1) ∈ scanIDs s ro :=
      foldl_min_mem_of_bounded _ hne hbound
    refine ⟨⟨hmaxmem, fun id hid => foldl_max_le_mem _ 0 id hid⟩,
      ⟨hminmem, fun id hid => foldl_min_le_mem _ _ id hid⟩, hmaxCh, ?_, ?_⟩
    · intro hlt
      show (if (initLoop ro cfg_chunks 0 ⟨2 ^ 32 - 1, 0, 0, 0, 0⟩ s).1.records < cfg_chunks
          then (if cfg_chunks ≤
                  (initLoop ro cfg_chunks 0 ⟨2 ^ 32 - 1, 0, 0, 0, 0⟩ s).1.max_rec_ch + 1
                then 0
                else (initLoop ro cfg_chunks 0 ⟨2 ^ 32 - 1, 0, 0, 0, 0⟩ s).1.max_rec_ch + 1)
          else (initLoop ro cfg_chunks 0 ⟨2 ^ 32 - 1, 0, 0, 0, 0⟩ s).1.min_rec_ch) =
        ((initLoop ro cfg_chunks 0 ⟨2 ^ 32 - 1, 0, 0, 0, 0⟩ s).1.max_rec_ch + 1) % cfg_chunks
      rw [hrec, if_pos hlt, hmaxCh]
      have hr : firstIdx (scanIDs s ro) ((scanIDs s ro).foldl max 0) <
          (scanIDs s ro).length := firstIdx_lt_length _ _ hmaxmem
      rw [cfg_chunks_eq] at hlt ⊢
      split <;> omega
    · intro heq
      show (if (initLoop ro cfg_chunks 0 ⟨2 ^ 32 - 1, 0, 0, 0, 0⟩ s).1.records < cfg_chunks
          then (if cfg_chunks ≤
                  (initLoop ro cfg_chunks 0 ⟨2 ^ 32 - 1, 0, 0, 0, 0⟩ s).1.max_rec_ch + 1
                then 0
                else (initLoop ro cfg_chunks 0 ⟨2 ^ 32 - 1, 0, 0, 0, 0⟩ s).1.max_rec_ch + 1)
          else (initLoop ro cfg_chunks 0 ⟨2 ^ 32 - 1, 0, 0, 0, 0⟩ s).1.min_rec_ch) =
        firstIdx (scanIDs s ro) ((scanIDs s ro).foldl min (2 ^ 32 - 1))
      rw [hrec, heq, if_neg (lt_irrefl cfg_chunks)]
      exact hminCh

/-- Claim C4 witness: on the concrete one-record store the scan finds
identifiers `[5]`, and the theorem places the read pointer on that chunk
and the write pointer one past it. -/
theorem claim4_witness :
    scanIDs c4store (fun _ => true) = [5] ∧
    (EEPROM_init c4store (fun _ => true)).r_chunk =
      firstIdx (scanIDs c4store (fun _ => true))
        ((scanIDs c4store (fun _ => true)).foldl max 0) ∧
    (EEPROM_init c4store (fun _ => true)).w_chunk =
      ((EEPROM_init c4store (fun _ => true)).r_chunk + 1) % cfg_chunks := by
  have h := claim4_init_scan_pointers c4store (fun _ => true) (by decide)
  have h2 := h.2.2 (by decide)
  exact ⟨by decide, h2.2.2.1, h2.2.2.2.1 (by decide)⟩

end Eeprom
